import Mathlib

/-!
Shallow embedding of the `codegraph` module of the repository
(`src/refact-agent/engine/src/codegraph/`): the call-graph data model
(`types.rs`), the two graph representations (`graph.rs` for the
side-table indexed `CodeGraph`, `types.rs` for the petgraph-backed
`PetGraphCodeGraph`), the storage codec (`petgraph_storage.rs`), the
analyzer algorithms (`analyzer.rs`) and the builder's call-resolution
pass (`parser.rs`).

Modelling conventions:
* `Uuid` is modelled as `Nat`; `PathBuf` as `String`.
* Rust `HashMap<K, V>` is modelled as an association list `List (K × V)`
  without duplicate keys; `insert` updates the existing entry in place or
  appends a fresh one.  Iteration order of the model is insertion order
  (the Rust `HashMap` order is arbitrary; no claim settled here depends
  on it beyond what the source guarantees).
* petgraph's `DiGraph<FunctionInfo, CallRelation>` is modelled by the
  list of node weights (position = `NodeIndex`) and the list of edges
  `(source index, target index, weight)` in insertion order
  (= edge-index order, which is what `edge_weights` iterates).
  `edges_directed` iterates a node's incident edges most-recent-first,
  hence the `.reverse` in `get_callers` / `get_callees`.
* Mutating Rust methods become functions returning the updated value;
  `PetGraphCodeGraph::add_call_relation`, which returns
  `Result<(), String>` while mutating `self`, becomes a function
  returning the pair (result, updated graph) so that "the graph is left
  unchanged on error" is expressible.
-/

/-- `ParameterInfo` from `types.rs`. -/
structure ParameterInfo where
  name : String
  type_name : Option String
  default_value : Option String
deriving DecidableEq, Repr

/-- `FunctionInfo` from `types.rs` (`namespace` is a Lean keyword, so the
field is `namespace_`). -/
structure FunctionInfo where
  id : Nat
  name : String
  file_path : String
  line_start : Nat
  line_end : Nat
  namespace_ : String
  language : String
  signature : Option String
  return_type : Option String
  parameters : List ParameterInfo
deriving DecidableEq, Repr

/-- `CallRelation` from `types.rs`. -/
structure CallRelation where
  caller_id : Nat
  callee_id : Nat
  caller_name : String
  callee_name : String
  caller_file : String
  callee_file : String
  line_number : Nat
  is_resolved : Bool
deriving DecidableEq, Repr

/-- `RelationType` from `types.rs`. -/
inductive RelationType where
  | Call | Import | Inherit | Implement
deriving DecidableEq, Repr

/-- `GraphRelation` from `types.rs`. -/
structure GraphRelation where
  source : Nat
  target : Nat
  relation_type : RelationType
deriving DecidableEq, Repr

/-- `CodeGraphStats` from `types.rs`; the `languages` histogram is an
association list standing for `HashMap<String, usize>`. -/
structure CodeGraphStats where
  total_functions : Nat
  total_files : Nat
  total_languages : Nat
  resolved_calls : Nat
  unresolved_calls : Nat
  languages : List (String × Nat)
deriving DecidableEq, Repr

/-- `CodeGraphStats::default()`. -/
def CodeGraphStats.default : CodeGraphStats :=
  { total_functions := 0, total_files := 0, total_languages := 0,
    resolved_calls := 0, unresolved_calls := 0, languages := [] }

/-- Association-list lookup, modelling `HashMap::get`. -/
def hmGet {K V : Type} [DecidableEq K] (m : List (K × V)) (k : K) : Option V :=
  match m with
  | [] => none
  | (k', v) :: rest => if k' = k then some v else hmGet rest k

/-- Association-list insert, modelling `HashMap::insert`: the existing
entry for the key is replaced in place, otherwise the entry is appended. -/
def hmInsert {K V : Type} [DecidableEq K] (m : List (K × V)) (k : K) (v : V) :
    List (K × V) :=
  match m with
  | [] => [(k, v)]
  | (k', v') :: rest =>
    if k' = k then (k, v) :: rest else (k', v') :: hmInsert rest k v

/-- `map.entry(k).or_default().push(x)` on a `HashMap<K, Vec<A>>`. -/
def hmPush {K A : Type} [DecidableEq K] (m : List (K × List A)) (k : K) (x : A) :
    List (K × List A) :=
  hmInsert m k ((hmGet m k).getD [] ++ [x])

/-- `*map.entry(k).or_default() += 1` on a `HashMap<K, usize>`. -/
def hmBump {K : Type} [DecidableEq K] (m : List (K × Nat)) (k : K) :
    List (K × Nat) :=
  hmInsert m k ((hmGet m k).getD 0 + 1)

/-- `CodeGraph` from `graph.rs` (representation A, side-table indexed). -/
structure CodeGraph where
  functions : List (Nat × FunctionInfo)
  function_names : List (String × List Nat)
  file_functions : List (String × List Nat)
  call_relations : List CallRelation
  graph_relations : List GraphRelation
  stats : CodeGraphStats
deriving DecidableEq, Repr

namespace CodeGraph

/-- `CodeGraph::new()`. -/
def new : CodeGraph :=
  { functions := [], function_names := [], file_functions := [],
    call_relations := [], graph_relations := [],
    stats := CodeGraphStats.default }

/-- `CodeGraph::add_function` from `graph.rs`. -/
def add_function (g : CodeGraph) (function : FunctionInfo) : CodeGraph :=
  { g with
    functions := hmInsert g.functions function.id function,
    function_names := hmPush g.function_names function.name function.id,
    file_functions := hmPush g.file_functions function.file_path function.id,
    stats := { g.stats with
      total_functions := g.stats.total_functions + 1,
      languages := hmBump g.stats.languages function.language } }

/-- `CodeGraph::add_call_relation` from `graph.rs`: appends the relation
unconditionally and bumps the matching stats counter. -/
def add_call_relation (g : CodeGraph) (relation : CallRelation) : CodeGraph :=
  { g with
    call_relations := g.call_relations ++ [relation],
    stats :=
      if relation.is_resolved then
        { g.stats with resolved_calls := g.stats.resolved_calls + 1 }
      else
        { g.stats with unresolved_calls := g.stats.unresolved_calls + 1 } }

/-- `CodeGraph::add_graph_relation` from `graph.rs`. -/
def add_graph_relation (g : CodeGraph) (relation : GraphRelation) : CodeGraph :=
  { g with graph_relations := g.graph_relations ++ [relation] }

/-- `CodeGraph::find_functions_by_name` from `graph.rs`. -/
def find_functions_by_name (g : CodeGraph) (name : String) : List FunctionInfo :=
  match hmGet g.function_names name with
  | none => []
  | some ids => ids.filterMap (fun id => hmGet g.functions id)

/-- `CodeGraph::get_callers` from `graph.rs`: linear scan of the edge
list keeping the relations whose callee is the given id. -/
def get_callers (g : CodeGraph) (function_id : Nat) : List CallRelation :=
  g.call_relations.filter (fun rel => rel.callee_id = function_id)

/-- `CodeGraph::get_callees` from `graph.rs`: linear scan of the edge
list keeping the relations whose caller is the given id. -/
def get_callees (g : CodeGraph) (function_id : Nat) : List CallRelation :=
  g.call_relations.filter (fun rel => rel.caller_id = function_id)

/-- `CodeGraph::update_stats` from `graph.rs`. -/
def update_stats (g : CodeGraph) : CodeGraph :=
  { g with stats := { g.stats with
      total_files := g.file_functions.length,
      total_languages := g.stats.languages.length } }

end CodeGraph

/-- `PetGraphCodeGraph` from `types.rs` (representation B): the petgraph
`DiGraph<FunctionInfo, CallRelation>` is modelled by `nodes` (node
weights, position = `NodeIndex`) and `edges`
(`(source index, target index, weight)` in edge-index order).
`mod.rs` re-exports this type as `PetCodeGraph`. -/
structure PetGraphCodeGraph where
  nodes : List FunctionInfo
  edges : List (Nat × Nat × CallRelation)
  function_to_node : List (Nat × Nat)
  node_to_function : List (Nat × Nat)
  function_names : List (String × List Nat)
  file_functions : List (String × List Nat)
  stats : CodeGraphStats
deriving DecidableEq, Repr

namespace PetGraphCodeGraph

/-- `PetGraphCodeGraph::new()`. -/
def new : PetGraphCodeGraph :=
  { nodes := [], edges := [], function_to_node := [], node_to_function := [],
    function_names := [], file_functions := [], stats := CodeGraphStats.default }

/-- `PetGraphCodeGraph::add_function` from `types.rs`; returns the fresh
`NodeIndex` (here: the position of the new node) together with the
updated graph, mirroring the Rust return value plus the mutation. -/
def add_function (g : PetGraphCodeGraph) (function : FunctionInfo) :
    Nat × PetGraphCodeGraph :=
  let node_index := g.nodes.length
  (node_index,
   { nodes := g.nodes ++ [function],
     edges := g.edges,
     function_to_node := hmInsert g.function_to_node function.id node_index,
     node_to_function := hmInsert g.node_to_function node_index function.id,
     function_names := hmPush g.function_names function.name function.id,
     file_functions := hmPush g.file_functions function.file_path function.id,
     stats := { g.stats with
       total_functions := g.stats.total_functions + 1,
       languages := hmBump g.stats.languages function.language } })

/-- `PetGraphCodeGraph::add_call_relation` from `types.rs`: looks up both
endpoint ids in `function_to_node` and fails with a "not found" error if
either is missing, in which case the graph is returned unchanged;
otherwise appends the edge and bumps the matching stats counter.  The
Rust method mutates `self` and returns `Result<(), String>`; the model
returns the pair. -/
def add_call_relation (g : PetGraphCodeGraph) (relation : CallRelation) :
    Except String Unit × PetGraphCodeGraph :=
  match hmGet g.function_to_node relation.caller_id with
  | none =>
    (Except.error ("Caller function " ++ toString relation.caller_id ++ " not found"), g)
  | some caller_node =>
    match hmGet g.function_to_node relation.callee_id with
    | none =>
      (Except.error ("Callee function " ++ toString relation.callee_id ++ " not found"), g)
    | some callee_node =>
      (Except.ok (),
       { g with
         edges := g.edges ++ [(caller_node, callee_node, relation)],
         stats :=
           if relation.is_resolved then
             { g.stats with resolved_calls := g.stats.resolved_calls + 1 }
           else
             { g.stats with unresolved_calls := g.stats.unresolved_calls + 1 } })

/-- `PetGraphCodeGraph::get_node_index`. -/
def get_node_index (g : PetGraphCodeGraph) (function_id : Nat) : Option Nat :=
  hmGet g.function_to_node function_id

/-- `PetGraphCodeGraph::get_function_by_id`. -/
def get_function_by_id (g : PetGraphCodeGraph) (function_id : Nat) :
    Option FunctionInfo :=
  (hmGet g.function_to_node function_id).bind (fun n => g.nodes[n]?)

/-- `PetGraphCodeGraph::get_callers` from `types.rs`: incoming edges of
the node (petgraph's `edges_directed` iterates most-recent-first, hence
the `reverse`) paired with the source node's weight. -/
def get_callers (g : PetGraphCodeGraph) (function_id : Nat) :
    List (FunctionInfo × CallRelation) :=
  match hmGet g.function_to_node function_id with
  | none => []
  | some n =>
    ((g.edges.filter (fun e => e.2.1 = n)).reverse).filterMap
      (fun e => (g.nodes[e.1]?).map (fun f => (f, e.2.2)))

/-- `PetGraphCodeGraph::get_callees` from `types.rs`: outgoing edges of
the node (most-recent-first) paired with the target node's weight. -/
def get_callees (g : PetGraphCodeGraph) (function_id : Nat) :
    List (FunctionInfo × CallRelation) :=
  match hmGet g.function_to_node function_id with
  | none => []
  | some n =>
    ((g.edges.filter (fun e => e.1 = n)).reverse).filterMap
      (fun e => (g.nodes[e.2.1]?).map (fun f => (f, e.2.2)))

/-- `PetGraphCodeGraph::find_functions_by_name`. -/
def find_functions_by_name (g : PetGraphCodeGraph) (name : String) :
    List FunctionInfo :=
  match hmGet g.function_names name with
  | none => []
  | some ids => ids.filterMap (fun id => g.get_function_by_id id)

/-- `PetGraphCodeGraph::update_stats` from `types.rs`. -/
def update_stats (g : PetGraphCodeGraph) : PetGraphCodeGraph :=
  { g with stats := { g.stats with
      total_files := g.file_functions.length,
      total_languages := g.stats.languages.length } }

/-- `PetGraphCodeGraph::get_all_functions`: node weights in index order. -/
def get_all_functions (g : PetGraphCodeGraph) : List FunctionInfo :=
  g.nodes

/-- `PetGraphCodeGraph::get_all_call_relations`: edge weights in
edge-index order. -/
def get_all_call_relations (g : PetGraphCodeGraph) : List CallRelation :=
  g.edges.map (fun e => e.2.2)

/-- Successor node indices of a node index, following the stored edges. -/
def succIdx (g : PetGraphCodeGraph) (i : Nat) : List Nat :=
  (g.edges.filter (fun e => e.1 = i)).map (fun e => e.2.1)

/-- One expansion step of a reachable set: add all successors. -/
def reachStep (g : PetGraphCodeGraph) (s : List Nat) : List Nat :=
  (s ++ s.flatMap g.succIdx).dedup

/-- Node indices reachable from `s` in at least one and at most
`k + |span of s|` steps, by iterating `reachStep`. -/
def reachIter (g : PetGraphCodeGraph) : Nat → List Nat → List Nat
  | 0, s => s
  | k + 1, s => reachIter g k (reachStep g s)

/-- `PetGraphCodeGraph::has_cycles`, which calls
`petgraph::algo::is_cyclic_directed` (external library).  Modelled from
that function's documented semantics: true iff the directed graph
contains a cycle, i.e. some node reaches itself by a non-empty edge
path.  A node on a cycle reaches itself within `|nodes|` steps, so the
bounded reachability check is exact. -/
def has_cycles (g : PetGraphCodeGraph) : Bool :=
  (List.range g.nodes.length).any
    (fun i => i ∈ reachIter g g.nodes.length (g.succIdx i))

end PetGraphCodeGraph

/-- The `for` loop of `_get_call_chain_recursive` over the callee list:
run the recursive expansion `step` (one level deeper) on each callee in
order, threading the visited set and concatenating the sub-chains. -/
def chainList (step : Nat → List Nat → List (List Nat) × List Nat) :
    List Nat → List Nat → List (List Nat) × List Nat
  | [], visited => ([], visited)
  | c :: rest, visited =>
    let r1 := step c visited
    let r2 := chainList step rest r1.2
    (r1.1 ++ r2.1, r2.2)

/-- The recursive worker shared verbatim (modulo the callee accessor) by
`CodeGraph::_get_call_chain_recursive` (`graph.rs`) and
`PetGraphCodeGraph::_get_call_chain_recursive` (`types.rs`), abstracted
over the function mapping an id to its callee ids in iteration order.
`fuel` stands for `max_depth - depth`, so the Rust guard
`depth >= max_depth` is the `fuel = 0` case; the `sub_chains`
accumulator passed to each recursive call starts empty while `visited`
is threaded through the whole expansion.  Returns the produced chains
together with the updated visited set. -/
def chainAux (callees : Nat → List Nat) :
    Nat → Nat → List Nat → List (List Nat) × List Nat
  | 0, _, visited => ([], visited)
  | fuel + 1, function_id, visited =>
    if function_id ∈ visited then ([], visited)
    else
      let visited' := function_id :: visited
      let cs := callees function_id
      if cs.isEmpty then ([[function_id]], visited')
      else
        let r := chainList (fun c v => chainAux callees fuel c v) cs visited'
        (r.1.map (fun chain => function_id :: chain), r.2)

/-- Callee ids of a function in representation A, in the order
`get_callees` yields them. -/
def CodeGraph.calleeIds (g : CodeGraph) (function_id : Nat) : List Nat :=
  (g.get_callees function_id).map (fun rel => rel.callee_id)

/-- `CodeGraph::get_call_chain` from `graph.rs`. -/
def CodeGraph.get_call_chain (g : CodeGraph) (function_id : Nat)
    (max_depth : Nat) : List (List Nat) :=
  (chainAux g.calleeIds max_depth function_id []).1

/-- Callee ids of a function in representation B, in the order
`get_callees` yields them (the recursion descends into
`callee_function.id`). -/
def PetGraphCodeGraph.calleeIds (g : PetGraphCodeGraph) (function_id : Nat) :
    List Nat :=
  (g.get_callees function_id).map (fun p => p.1.id)

/-- `PetGraphCodeGraph::get_call_chain` from `types.rs`. -/
def PetGraphCodeGraph.get_call_chain (g : PetGraphCodeGraph)
    (function_id : Nat) (max_depth : Nat) : List (List Nat) :=
  (chainAux g.calleeIds max_depth function_id []).1

/-- `PetGraphStorage` from `petgraph_storage.rs`. -/
structure PetGraphStorage where
  functions : List FunctionInfo
  call_relations : List CallRelation
  function_names : List (String × List Nat)
  file_functions : List (String × List Nat)
  stats : CodeGraphStats
deriving DecidableEq, Repr

/-- `PetGraphStorage::from_petgraph`. -/
def PetGraphStorage.from_petgraph (code_graph : PetGraphCodeGraph) :
    PetGraphStorage :=
  { functions := code_graph.get_all_functions,
    call_relations := code_graph.get_all_call_relations,
    function_names := code_graph.function_names,
    file_functions := code_graph.file_functions,
    stats := code_graph.stats }

/-- `PetGraphStorage::to_petgraph`: re-adds every function, re-adds every
relation (failures are logged and skipped), then overwrites the two
index maps and the stats with the stored copies. -/
def PetGraphStorage.to_petgraph (s : PetGraphStorage) : PetGraphCodeGraph :=
  let g := s.functions.foldl
    (fun g f => (PetGraphCodeGraph.add_function g f).2) PetGraphCodeGraph.new
  let g := s.call_relations.foldl
    (fun g r => (PetGraphCodeGraph.add_call_relation g r).2) g
  { g with
    function_names := s.function_names,
    file_functions := s.file_functions,
    stats := s.stats }

/-- `PetGraphStorageManager::save_to_json` composed with
`load_from_json` (and likewise `save_to_binary` with
`load_from_binary`).  The serde_json / bincode layer (external
libraries, derived `Serialize`/`Deserialize` on the plain
`PetGraphStorage` record) is modelled as an exact codec — deserializing
a serialized storage value yields the same value — so the composition is
exactly `to_petgraph ∘ from_petgraph`. -/
def PetGraphStorageManager.save_then_load (code_graph : PetGraphCodeGraph) :
    PetGraphCodeGraph :=
  (PetGraphStorage.from_petgraph code_graph).to_petgraph

/-- The mutable state of `CodeGraphAnalyzer::_dfs_cycle_detection`
(`analyzer.rs`): the shared visited set, the recursion stack, the
current path (`cycle`) and the accumulated cycles. -/
structure DfsState where
  visited : List Nat
  rec_stack : List Nat
  cycle : List FunctionInfo
  cycles : List (List FunctionInfo)
deriving DecidableEq, Repr

/-- The `for callee_rel in callees` loop of `_dfs_cycle_detection`
(`analyzer.rs`), with `recur` standing for the recursive call one level
deeper: skip unknown callee ids, recurse into unvisited callees, and
when a visited callee is still on the recursion stack emit the slice of
the current path from that callee's first occurrence, closed by the
callee itself. -/
def dfsCycleList (g : CodeGraph) (recur : FunctionInfo → DfsState → DfsState) :
    List CallRelation → DfsState → DfsState
  | [], s => s
  | rel :: rest, s =>
    let s' :=
      match hmGet g.functions rel.callee_id with
      | none => s
      | some callee =>
        if callee.id ∈ s.visited then
          if callee.id ∈ s.rec_stack then
            match s.cycle.findIdx? (fun x => x.id = callee.id) with
            | none => s
            | some start_idx =>
              { s with cycles := s.cycles ++ [s.cycle.drop start_idx ++ [callee]] }
          else s
        else recur callee s
    dfsCycleList g recur rest s'

/-- `CodeGraphAnalyzer::_dfs_cycle_detection` from `analyzer.rs`.  The
Rust recursion terminates because every recursive call is on a callee
that is immediately marked visited, bounding the recursion depth by the
number of functions; the model makes that bound explicit as `fuel`
(callers pass `g.functions.length + 1`, which the depth never reaches). -/
def dfsCycle (g : CodeGraph) : Nat → FunctionInfo → DfsState → DfsState
  | 0, _, s => s
  | fuel + 1, f, s =>
    let s1 : DfsState :=
      { s with
        visited := f.id :: s.visited,
        rec_stack := f.id :: s.rec_stack,
        cycle := s.cycle ++ [f] }
    let s2 := dfsCycleList g (fun cf cs => dfsCycle g fuel cf cs)
      (g.get_callees f.id) s1
    { s2 with rec_stack := s2.rec_stack.erase f.id, cycle := s2.cycle.dropLast }

namespace CodeGraphAnalyzer

/-- `CodeGraphAnalyzer::find_circular_dependencies` from `analyzer.rs`
(the analyzer holds a representation-A graph): a DFS from every
not-yet-visited function, sharing `visited` and `rec_stack` across roots
and giving each root a fresh `cycle` path. -/
def find_circular_dependencies (g : CodeGraph) : List (List FunctionInfo) :=
  let s := g.functions.foldl
    (fun (s : DfsState) kv =>
      if kv.2.id ∈ s.visited then s
      else dfsCycle g (g.functions.length + 1) kv.2 { s with cycle := [] })
    { visited := [], rec_stack := [], cycle := [], cycles := [] }
  s.cycles

/-- `CodeGraphAnalyzer::find_leaf_functions` from `analyzer.rs`: the
functions whose `get_callers` list is empty (zero in-degree). -/
def find_leaf_functions (g : CodeGraph) : List FunctionInfo :=
  (g.functions.map Prod.snd).filter (fun f => (g.get_callers f.id).isEmpty)

/-- `CodeGraphAnalyzer::find_root_functions` from `analyzer.rs`: the
functions whose `get_callees` list is empty (zero out-degree). -/
def find_root_functions (g : CodeGraph) : List FunctionInfo :=
  (g.functions.map Prod.snd).filter (fun f => (g.get_callees f.id).isEmpty)

end CodeGraphAnalyzer

/-- `SymbolType` from the tree-sitter AST layer, restricted to the three
cases the codegraph builder distinguishes. -/
inductive SymbolType where
  | FunctionDeclaration | FunctionCall | Other
deriving DecidableEq, Repr

/-- A symbol record as consumed by `parser.rs`: identity (`guid`), name,
0-based source rows, namespace, language, plus the declaration metadata.
The signature / return-type / parameter extraction helpers of
`parser.rs` only reformat the declaration's own data, so they are
modelled as fields supplied by the symbol. -/
structure AstSymbol where
  symbol_type : SymbolType
  guid : Nat
  name : String
  row_start : Nat
  row_end : Nat
  namespace_ : String
  language : String
  signature : Option String
  return_type : Option String
  parameters : List ParameterInfo
deriving DecidableEq, Repr

/-- `CodeParser::_create_function_info` from `parser.rs`: the record id
is the symbol's own guid and the 0-based rows become 1-based lines. -/
def createFunctionInfo (symbol : AstSymbol) (file_path : String) : FunctionInfo :=
  { id := symbol.guid,
    name := symbol.name,
    file_path := file_path,
    line_start := symbol.row_start + 1,
    line_end := symbol.row_end + 1,
    namespace_ := symbol.namespace_,
    language := symbol.language,
    signature := symbol.signature,
    return_type := symbol.return_type,
    parameters := symbol.parameters }

/-- One symbol step of `CodeParser::_analyze_call_relations`
(`parser.rs`), acting on the graph and the per-file
`current_function_stack` (which is pushed on every declaration and never
popped): a declaration pushes the first name-index match; a call site
with a non-empty stack emits one resolved relation per name-index match
of the callee name, attributed to the top of the stack. -/
def analyzeCallSymbol (g : CodeGraph) (stack : List Nat) (symbol : AstSymbol) :
    CodeGraph × List Nat :=
  match symbol.symbol_type with
  | .FunctionDeclaration =>
    match (g.find_functions_by_name symbol.name).head? with
    | some function_info => (g, stack ++ [function_info.id])
    | none => (g, stack)
  | .FunctionCall =>
    match stack.getLast? with
    | none => (g, stack)
    | some caller_id =>
      let callee_functions := g.find_functions_by_name symbol.name
      match hmGet g.functions caller_id with
      | none => (g, stack)
      | some caller_info =>
        let relations_to_add : List CallRelation :=
          callee_functions.map (fun callee_info =>
            { caller_id := caller_id,
              callee_id := callee_info.id,
              caller_name := caller_info.name,
              callee_name := callee_info.name,
              caller_file := caller_info.file_path,
              callee_file := callee_info.file_path,
              line_number := symbol.row_start + 1,
              is_resolved := true })
        (relations_to_add.foldl CodeGraph.add_call_relation g, stack)
  | .Other => (g, stack)

/-- The per-file loop of `CodeParser::_analyze_call_relations`: a fresh
`current_function_stack` per file, threaded through the file's symbols. -/
def analyzeFile (g : CodeGraph) (symbols : List AstSymbol) : CodeGraph :=
  (symbols.foldl (fun (p : CodeGraph × List Nat) sym =>
    analyzeCallSymbol p.1 p.2 sym) (g, [])).1

/-- `CodeParser::_analyze_call_relations` over all files. -/
def analyze_call_relations (g : CodeGraph)
    (file_asts : List (String × List AstSymbol)) : CodeGraph :=
  file_asts.foldl (fun g fa => analyzeFile g fa.2) g

/-- `CodeParser::build_code_graph` from `parser.rs`, taken at the
boundary where `parse_directory` has produced `file_asts`: pass 1 adds a
function per declaration symbol, pass 2 resolves call sites, then the
stats are refreshed. -/
def build_code_graph (file_asts : List (String × List AstSymbol)) : CodeGraph :=
  let g := file_asts.foldl
    (fun g fa =>
      fa.2.foldl
        (fun g sym =>
          if sym.symbol_type = SymbolType.FunctionDeclaration then
            g.add_function (createFunctionInfo sym fa.1)
          else g)
        g)
    CodeGraph.new
  let g := analyze_call_relations g file_asts
  g.update_stats

/-- A graph-building operation: the two mutators shared by both
representations (`add_function` / `add_call_relation`). -/
inductive GraphOp where
  | addFun : FunctionInfo → GraphOp
  | addRel : CallRelation → GraphOp
deriving DecidableEq, Repr

/-- Representation A graph reached from the empty graph by a sequence of
operations. -/
def CodeGraph.runOps (ops : List GraphOp) : CodeGraph :=
  ops.foldl
    (fun g op =>
      match op with
      | GraphOp.addFun f => g.add_function f
      | GraphOp.addRel r => g.add_call_relation r)
    CodeGraph.new

/-- Representation B graph reached from the empty graph by a sequence of
operations (a failed `add_call_relation` leaves the graph unchanged). -/
def PetGraphCodeGraph.runOps (ops : List GraphOp) : PetGraphCodeGraph :=
  ops.foldl
    (fun g op =>
      match op with
      | GraphOp.addFun f => (g.add_function f).2
      | GraphOp.addRel r => (g.add_call_relation r).2)
    PetGraphCodeGraph.new

/-- Representation A graph built by inserting a list of functions into
the empty graph (the shape `build_code_graph`'s pass 1 produces). -/
def CodeGraph.buildFromFunctions (fs : List FunctionInfo) : CodeGraph :=
  fs.foldl CodeGraph.add_function CodeGraph.new

/-- Representation B graph built by inserting a list of functions into
the empty graph. -/
def PetGraphCodeGraph.buildFromFunctions (fs : List FunctionInfo) :
    PetGraphCodeGraph :=
  fs.foldl (fun g f => (PetGraphCodeGraph.add_function g f).2)
    PetGraphCodeGraph.new

/-- Sum of the values of a histogram (e.g. the per-language counts). -/
def sumVals {K : Type} (m : List (K × Nat)) : Nat :=
  (m.map Prod.snd).sum

/-! ### Concrete inputs used by counterexamples and witnesses -/

/-- A concrete function record. -/
def mkFun (id : Nat) (name : String) (file : String) : FunctionInfo :=
  { id := id, name := name, file_path := file, line_start := 1, line_end := 2,
    namespace_ := "", language := "rust", signature := none,
    return_type := none, parameters := [] }

/-- A concrete call relation from `a` to `b` at the given line. -/
def mkRel (a b : Nat) (line : Nat) : CallRelation :=
  { caller_id := a, callee_id := b, caller_name := "", callee_name := "",
    caller_file := "", callee_file := "", line_number := line,
    is_resolved := true }

def funA : FunctionInfo := mkFun 1 "A" "a.rs"

def funB : FunctionInfo := mkFun 2 "B" "a.rs"

def funC : FunctionInfo := mkFun 3 "C" "b.rs"

/-- Representation-A graph with functions A, B, C and edges A→B, B→C,
C→A (the three-cycle of §8 of the spec). -/
def gABC : CodeGraph :=
  CodeGraph.runOps
    [GraphOp.addFun funA, GraphOp.addFun funB, GraphOp.addFun funC,
     GraphOp.addRel (mkRel 1 2 5), GraphOp.addRel (mkRel 2 3 6),
     GraphOp.addRel (mkRel 3 1 7)]

/-- Representation-B graph with the same three-cycle. -/
def pABC : PetGraphCodeGraph :=
  PetGraphCodeGraph.runOps
    [GraphOp.addFun funA, GraphOp.addFun funB, GraphOp.addFun funC,
     GraphOp.addRel (mkRel 1 2 5), GraphOp.addRel (mkRel 2 3 6),
     GraphOp.addRel (mkRel 3 1 7)]

/-- Representation-A graph with functions A, B, C and edges A→B, B→C
(acyclic; C has no outgoing edges). -/
def gLin : CodeGraph :=
  CodeGraph.runOps
    [GraphOp.addFun funA, GraphOp.addFun funB, GraphOp.addFun funC,
     GraphOp.addRel (mkRel 1 2 5), GraphOp.addRel (mkRel 2 3 6)]

/-- A dangling relation: caller 1 exists, callee 99 was never inserted. -/
def relDangling : CallRelation := mkRel 1 99 5

/-- Representation-A graph holding only function A plus the dangling
relation A→99. -/
def gDangling : CodeGraph :=
  (CodeGraph.new.add_function funA).add_call_relation relDangling

/-- A concrete declaration symbol. -/
def symDecl (id : Nat) (nm : String) : AstSymbol :=
  { symbol_type := SymbolType.FunctionDeclaration, guid := id, name := nm,
    row_start := 0, row_end := 1, namespace_ := "", language := "rust",
    signature := none, return_type := none, parameters := [] }

/-- A concrete call-site symbol. -/
def symCall (nm : String) (row : Nat) : AstSymbol :=
  { symbol_type := SymbolType.FunctionCall, guid := 0, name := nm,
    row_start := row, row_end := row, namespace_ := "", language := "rust",
    signature := none, return_type := none, parameters := [] }

/-- A symbol stream whose first file starts with a top-level call site
(no enclosing declaration) naming a function that the second file
declares. -/
def streamTop : List (String × List AstSymbol) :=
  [("a.rs", [symCall "f" 3]), ("b.rs", [symDecl 7 "f"])]

/-- Representation-B graph with functions A, B, C and edges A→B, B→C. -/
def pLin : PetGraphCodeGraph :=
  PetGraphCodeGraph.runOps
    [GraphOp.addFun funA, GraphOp.addFun funB, GraphOp.addFun funC,
     GraphOp.addRel (mkRel 1 2 5), GraphOp.addRel (mkRel 2 3 6)]

/-- All six iteration orders of the three-entry id→function map holding
A, B and C.  `find_circular_dependencies` iterates
`code_graph.functions.values()`, a `HashMap` whose order is arbitrary,
so a run of the program may see the entries in any of these orders. -/
def permsABC : List (List (Nat × FunctionInfo)) :=
  [[(1, funA), (2, funB), (3, funC)], [(1, funA), (3, funC), (2, funB)],
   [(2, funB), (1, funA), (3, funC)], [(2, funB), (3, funC), (1, funA)],
   [(3, funC), (1, funA), (2, funB)], [(3, funC), (2, funB), (1, funA)]]

/-- The three-cycle graph `gABC` with its id→function map listed in the
given iteration order (the call-relation `Vec` keeps its deterministic
insertion order). -/
def gABCwith (fns : List (Nat × FunctionInfo)) : CodeGraph :=
  { gABC with functions := fns }

/-- The three rotations of `[A, B, C]`, each closed by repeating its
first function at the end — the possible shapes of the one cycle of the
three-cycle graph as `_dfs_cycle_detection` reports it, depending on
which function the arbitrary map order makes the DFS root. -/
def closedRotationsABC : List (List FunctionInfo) :=
  [[funA, funB, funC, funA], [funB, funC, funA, funB], [funC, funA, funB, funC]]

/-- Invariant of representation-B graphs reachable by `runOps`: every
stored edge's relation has both endpoint ids among the node ids, and
every key of `function_to_node` is a node id. -/
def PetGraphCodeGraph.wf (g : PetGraphCodeGraph) : Prop :=
  (∀ e ∈ g.edges, e.2.2.caller_id ∈ g.nodes.map FunctionInfo.id ∧
      e.2.2.callee_id ∈ g.nodes.map FunctionInfo.id) ∧
  (∀ k ∈ g.function_to_node.map Prod.fst, k ∈ g.nodes.map FunctionInfo.id)

/-- The invariant behind C4's consequence: every stored call relation is
resolved and the unresolved counter is zero. -/
def allResolved (g : CodeGraph) : Prop :=
  (∀ rel ∈ g.call_relations, rel.is_resolved = true) ∧
  g.stats.unresolved_calls = 0

/-- The invariant of a single emitted chain: it starts at the expanded
function, follows callee edges, repeats no function, avoids the visited
set it was expanded under, and ends at a function with no callees. -/
def chainOk (callees : Nat → List Nat) (v : List Nat) (b : Nat)
    (ch : List Nat) : Prop :=
  ch.head? = some b ∧
  List.Chain' (fun a c => c ∈ callees a) ch ∧
  ch.Nodup ∧
  (∀ x ∈ ch, x ∉ v) ∧
  (∀ l, ch.getLast? = some l → callees l = [])

/-! ### Generic helper lemmas -/

theorem foldl_preserves {α β : Type} (P : α → Prop) (step : α → β → α)
    (h : ∀ a b, P a → P (step a b)) :
    ∀ (l : List β) (a : α), P a → P (l.foldl step a)
  | [], _, ha => ha
  | b :: rest, a, ha => foldl_preserves P step h rest (step a b) (h a b ha)

theorem hmGet_hmInsert {K V : Type} [DecidableEq K]
    (m : List (K × V)) (k k' : K) (v : V) :
    hmGet (hmInsert m k v) k' = if k = k' then some v else hmGet m k' := by
  induction m with
  | nil => by_cases h : k = k' <;> simp [hmInsert, hmGet, h]
  | cons p rest ih =>
    obtain ⟨k0, v0⟩ := p
    by_cases h0 : k0 = k
    · subst h0
      by_cases h1 : k0 = k' <;> simp [hmInsert, hmGet, h1]
    · by_cases h1 : k0 = k'
      · subst h1
        have : ¬ k = k0 := fun h => h0 h.symm
        simp [hmInsert, hmGet, h0, this]
      · simp [hmInsert, hmGet, h0, h1, ih]

theorem hmInsert_of_not_mem {K V : Type} [DecidableEq K]
    (m : List (K × V)) (k : K) (v : V) (h : k ∉ m.map Prod.fst) :
    hmInsert m k v = m ++ [(k, v)] := by
  induction m with
  | nil => simp [hmInsert]
  | cons p rest ih =>
    obtain ⟨k0, v0⟩ := p
    simp only [List.map_cons, List.mem_cons] at h
    push_neg at h
    have : ¬ k0 = k := fun hk => h.1 hk.symm
    simp [hmInsert, this, ih h.2]

theorem hmGet_eq_none_of_not_mem {K V : Type} [DecidableEq K]
    (m : List (K × V)) (k : K) (h : k ∉ m.map Prod.fst) :
    hmGet m k = none := by
  induction m with
  | nil => simp [hmGet]
  | cons p rest ih =>
    obtain ⟨k0, v0⟩ := p
    simp only [List.map_cons, List.mem_cons] at h
    push_neg at h
    have : ¬ k0 = k := fun hk => h.1 hk.symm
    simp [hmGet, this, ih h.2]

theorem sumVals_hmBump {K : Type} [DecidableEq K] (m : List (K × Nat)) (k : K) :
    sumVals (hmBump m k) = sumVals m + 1 := by
  induction m with
  | nil => simp [hmBump, hmInsert, hmGet, sumVals]
  | cons p rest ih =>
    obtain ⟨k0, v0⟩ := p
    by_cases h0 : k0 = k
    · subst h0
      simp [hmBump, hmInsert, hmGet, sumVals]
      omega
    · have hstep : hmBump ((k0, v0) :: rest) k = (k0, v0) :: hmBump rest k := by
        simp [hmBump, hmInsert, hmGet, h0]
      rw [hstep]
      simp only [sumVals, List.map_cons, List.sum_cons] at ih ⊢
      omega

/-! ### Claim theorems -/

/-- C10: in both representations, `get_call_chain(id, 0)` returns the
empty list of chains for every graph and every id — the `depth >=
max_depth` guard fires immediately, so even an existing function with no
callees contributes no singleton chain at depth bound zero. -/
theorem claim_C10_call_chain_depth_zero (gA : CodeGraph)
    (gB : PetGraphCodeGraph) (id : Nat) :
    gA.get_call_chain id 0 = [] ∧ gB.get_call_chain id 0 = [] :=
  ⟨rfl, rfl⟩

/-- C9: in both representations, `update_stats` sets `stats.total_files`
to the size of the file-path index and `stats.total_languages` to the
size of the per-language histogram, and leaves every other component of
the graph — the function store, the call edges, the name and file
indices, and the remaining stats fields including the histogram itself —
unchanged. -/
theorem claim_C9_update_stats_frame (gA : CodeGraph) (gB : PetGraphCodeGraph) :
    (gA.update_stats.stats.total_files = gA.file_functions.length ∧
     gA.update_stats.stats.total_languages = gA.stats.languages.length ∧
     gA.update_stats.functions = gA.functions ∧
     gA.update_stats.function_names = gA.function_names ∧
     gA.update_stats.file_functions = gA.file_functions ∧
     gA.update_stats.call_relations = gA.call_relations ∧
     gA.update_stats.graph_relations = gA.graph_relations ∧
     gA.update_stats.stats.total_functions = gA.stats.total_functions ∧
     gA.update_stats.stats.resolved_calls = gA.stats.resolved_calls ∧
     gA.update_stats.stats.unresolved_calls = gA.stats.unresolved_calls ∧
     gA.update_stats.stats.languages = gA.stats.languages) ∧
    (gB.update_stats.stats.total_files = gB.file_functions.length ∧
     gB.update_stats.stats.total_languages = gB.stats.languages.length ∧
     gB.update_stats.nodes = gB.nodes ∧
     gB.update_stats.edges = gB.edges ∧
     gB.update_stats.function_to_node = gB.function_to_node ∧
     gB.update_stats.node_to_function = gB.node_to_function ∧
     gB.update_stats.function_names = gB.function_names ∧
     gB.update_stats.file_functions = gB.file_functions ∧
     gB.update_stats.stats.total_functions = gB.stats.total_functions ∧
     gB.update_stats.stats.resolved_calls = gB.stats.resolved_calls ∧
     gB.update_stats.stats.unresolved_calls = gB.stats.unresolved_calls ∧
     gB.update_stats.stats.languages = gB.stats.languages) :=
  ⟨⟨rfl, rfl, rfl, rfl, rfl, rfl, rfl, rfl, rfl, rfl, rfl⟩,
   ⟨rfl, rfl, rfl, rfl, rfl, rfl, rfl, rfl, rfl, rfl, rfl, rfl⟩⟩

/-- C2 counterexample: in representation A, after inserting the dangling
relation A→99 (id 99 was never inserted as a function), `get_callers 99`
returns that relation — not the empty list the claim states. -/
theorem claim_C2_counterexample :
    hmGet gDangling.functions 99 = none ∧
    gDangling.get_callers 99 = [relDangling] ∧
    gDangling.get_callers 99 ≠ [] := by
  refine ⟨by decide, by decide, by decide⟩

/-- C2 amended: representation B's `add_call_relation` fails with a
"... not found" error exactly when the caller or callee id has no entry
in `function_to_node`, and in the error case the whole graph value is
returned unchanged; representation A's `add_call_relation` appends any
relation unconditionally, and `get_callers` on the (possibly
never-inserted) callee id then returns exactly the stored relations with
that callee id — in particular the dangling edge itself, not the empty
list — while `get_callees` on an id that no stored relation names as
caller returns the empty list. -/
theorem claim_C2_strict_insertion (gB : PetGraphCodeGraph) (gA : CodeGraph)
    (r : CallRelation) :
    (((gB.add_call_relation r).1.isOk = false) ↔
       (gB.get_node_index r.caller_id = none ∨
        gB.get_node_index r.callee_id = none)) ∧
    (gB.get_node_index r.caller_id = none →
       (gB.add_call_relation r).1
         = Except.error ("Caller function " ++ toString r.caller_id ++ " not found")) ∧
    (∀ n, gB.get_node_index r.caller_id = some n →
       gB.get_node_index r.callee_id = none →
       (gB.add_call_relation r).1
         = Except.error ("Callee function " ++ toString r.callee_id ++ " not found")) ∧
    ((gB.add_call_relation r).1.isOk = false → (gB.add_call_relation r).2 = gB) ∧
    ((gA.add_call_relation r).call_relations = gA.call_relations ++ [r]) ∧
    ((gA.add_call_relation r).get_callers r.callee_id
       = gA.get_callers r.callee_id ++ [r]) ∧
    (∀ id, (∀ rel ∈ gA.call_relations, rel.caller_id ≠ id) → r.caller_id ≠ id →
       (gA.add_call_relation r).get_callees id = []) := by
  refine ⟨?_, ?_, ?_, ?_, rfl, ?_, ?_⟩
  · cases h1 : hmGet gB.function_to_node r.caller_id with
    | none => simp [PetGraphCodeGraph.add_call_relation,
        PetGraphCodeGraph.get_node_index, h1, Except.isOk, Except.toBool]
    | some n =>
      cases h2 : hmGet gB.function_to_node r.callee_id with
      | none => simp [PetGraphCodeGraph.add_call_relation,
          PetGraphCodeGraph.get_node_index, h1, h2, Except.isOk, Except.toBool]
      | some m => simp [PetGraphCodeGraph.add_call_relation,
          PetGraphCodeGraph.get_node_index, h1, h2, Except.isOk, Except.toBool]
  · intro h1
    simp only [PetGraphCodeGraph.get_node_index] at h1
    simp [PetGraphCodeGraph.add_call_relation, h1]
  · intro n h1 h2
    simp only [PetGraphCodeGraph.get_node_index] at h1 h2
    simp [PetGraphCodeGraph.add_call_relation, h1, h2]
  · cases h1 : hmGet gB.function_to_node r.caller_id with
    | none => intro _; simp [PetGraphCodeGraph.add_call_relation, h1]
    | some n =>
      cases h2 : hmGet gB.function_to_node r.callee_id with
      | none => intro _; simp [PetGraphCodeGraph.add_call_relation, h1, h2]
      | some m =>
        intro hfalse
        exfalso
        simp [PetGraphCodeGraph.add_call_relation, h1, h2, Except.isOk,
          Except.toBool] at hfalse
  · simp [CodeGraph.add_call_relation, CodeGraph.get_callers, List.filter_append]
  · intro id hall hr
    simp only [CodeGraph.add_call_relation, CodeGraph.get_callees]
    rw [List.filter_append]
    rw [List.filter_eq_nil_iff.mpr (by intro a ha; simp [hall a ha]),
      List.filter_eq_nil_iff.mpr (by intro a ha; simp at ha; simp [ha, hr])]
    rfl

/-- C2 witness: the amended statement exercised on concrete inputs — the
empty representation-B graph rejects the dangling relation with the
caller-not-found message and is unchanged; a one-node representation-B
graph rejects it with the callee-not-found message; representation A
accepts the dangling relation, `get_callers` then yields it and
`get_callees 42` is empty. -/
theorem claim_C2_strict_insertion_witness :
    (PetGraphCodeGraph.new.add_call_relation relDangling).1
      = Except.error ("Caller function " ++ toString relDangling.caller_id ++ " not found") ∧
    ((PetGraphCodeGraph.buildFromFunctions [funA]).add_call_relation relDangling).1
      = Except.error ("Callee function " ++ toString relDangling.callee_id ++ " not found") ∧
    (PetGraphCodeGraph.new.add_call_relation relDangling).2 = PetGraphCodeGraph.new ∧
    (((CodeGraph.new.add_function funA).add_call_relation relDangling).get_callers
       relDangling.callee_id
       = CodeGraph.get_callers (CodeGraph.new.add_function funA) relDangling.callee_id
         ++ [relDangling]) ∧
    ((CodeGraph.new.add_function funA).add_call_relation relDangling).get_callees 42 = [] :=
  ⟨(claim_C2_strict_insertion PetGraphCodeGraph.new CodeGraph.new relDangling).2.1
     (by decide),
   (claim_C2_strict_insertion (PetGraphCodeGraph.buildFromFunctions [funA])
      CodeGraph.new relDangling).2.2.1 0 (by decide) (by decide),
   (claim_C2_strict_insertion PetGraphCodeGraph.new CodeGraph.new relDangling).2.2.2.1
     (by decide),
   (claim_C2_strict_insertion PetGraphCodeGraph.new (CodeGraph.new.add_function funA)
      relDangling).2.2.2.2.2.1,
   (claim_C2_strict_insertion PetGraphCodeGraph.new (CodeGraph.new.add_function funA)
      relDangling).2.2.2.2.2.2 42 (by decide) (by decide)⟩

/-- C8: `find_leaf_functions` returns exactly the stored functions with
zero in-degree (no call relation has them as callee) and
`find_root_functions` exactly those with zero out-degree (none has them
as caller); over an edge-less graph both equal the full function list,
so their intersection is the full function set. -/
theorem claim_C8_leaf_root (g : CodeGraph) :
    (∀ f, f ∈ CodeGraphAnalyzer.find_leaf_functions g ↔
       (f ∈ g.functions.map Prod.snd ∧
        ∀ rel ∈ g.call_relations, rel.callee_id ≠ f.id)) ∧
    (∀ f, f ∈ CodeGraphAnalyzer.find_root_functions g ↔
       (f ∈ g.functions.map Prod.snd ∧
        ∀ rel ∈ g.call_relations, rel.caller_id ≠ f.id)) ∧
    (g.call_relations = [] →
       CodeGraphAnalyzer.find_leaf_functions g = g.functions.map Prod.snd ∧
       CodeGraphAnalyzer.find_root_functions g = g.functions.map Prod.snd) := by
  refine ⟨?_, ?_, ?_⟩
  · intro f
    simp [CodeGraphAnalyzer.find_leaf_functions, CodeGraph.get_callers,
      List.mem_filter, List.isEmpty_iff, List.filter_eq_nil_iff]
  · intro f
    simp [CodeGraphAnalyzer.find_root_functions, CodeGraph.get_callees,
      List.mem_filter, List.isEmpty_iff, List.filter_eq_nil_iff]
  · intro h
    constructor
    · rw [CodeGraphAnalyzer.find_leaf_functions]
      rw [List.filter_eq_self.mpr]
      intro a _
      simp [CodeGraph.get_callers, h]
    · rw [CodeGraphAnalyzer.find_root_functions]
      rw [List.filter_eq_self.mpr]
      intro a _
      simp [CodeGraph.get_callees, h]

/-- C8 witness: the characterization applied to the edge-less two-node
graph, discharging the edge-less hypothesis. -/
theorem claim_C8_leaf_root_witness :
    CodeGraphAnalyzer.find_leaf_functions (CodeGraph.buildFromFunctions [funA, funB])
      = (CodeGraph.buildFromFunctions [funA, funB]).functions.map Prod.snd ∧
    CodeGraphAnalyzer.find_root_functions (CodeGraph.buildFromFunctions [funA, funB])
      = (CodeGraph.buildFromFunctions [funA, funB]).functions.map Prod.snd :=
  (claim_C8_leaf_root (CodeGraph.buildFromFunctions [funA, funB])).2.2 (by decide)

theorem partition_step_A (g : CodeGraph) (op : GraphOp)
    (h : g.stats.resolved_calls + g.stats.unresolved_calls
      = g.call_relations.length) :
    (match op with
     | GraphOp.addFun f => g.add_function f
     | GraphOp.addRel r => g.add_call_relation r).stats.resolved_calls
      + (match op with
         | GraphOp.addFun f => g.add_function f
         | GraphOp.addRel r => g.add_call_relation r).stats.unresolved_calls
      = (match op with
         | GraphOp.addFun f => g.add_function f
         | GraphOp.addRel r => g.add_call_relation r).call_relations.length := by
  cases op with
  | addFun f => simpa [CodeGraph.add_function] using h
  | addRel r =>
    by_cases hr : r.is_resolved = true <;>
      simp [CodeGraph.add_call_relation, hr] <;> omega

theorem partition_step_B (g : PetGraphCodeGraph) (op : GraphOp)
    (h : g.stats.resolved_calls + g.stats.unresolved_calls = g.edges.length) :
    (match op with
     | GraphOp.addFun f => (g.add_function f).2
     | GraphOp.addRel r => (g.add_call_relation r).2).stats.resolved_calls
      + (match op with
         | GraphOp.addFun f => (g.add_function f).2
         | GraphOp.addRel r => (g.add_call_relation r).2).stats.unresolved_calls
      = (match op with
         | GraphOp.addFun f => (g.add_function f).2
         | GraphOp.addRel r => (g.add_call_relation r).2).edges.length := by
  cases op with
  | addFun f => simpa [PetGraphCodeGraph.add_function] using h
  | addRel r =>
    cases h1 : hmGet g.function_to_node r.caller_id with
    | none => simpa [PetGraphCodeGraph.add_call_relation, h1] using h
    | some n =>
      cases h2 : hmGet g.function_to_node r.callee_id with
      | none => simpa [PetGraphCodeGraph.add_call_relation, h1, h2] using h
      | some m =>
        by_cases hr : r.is_resolved = true <;>
          simp [PetGraphCodeGraph.add_call_relation, h1, h2, hr] <;> omega

/-- C5: for every graph reachable from the empty graph by any sequence
of `add_function` / `add_call_relation` operations, in both
representations, `stats.resolved_calls + stats.unresolved_calls` equals
the number of stored call edges. -/
theorem claim_C5_partition (ops : List GraphOp) :
    ((CodeGraph.runOps ops).stats.resolved_calls
       + (CodeGraph.runOps ops).stats.unresolved_calls
       = (CodeGraph.runOps ops).call_relations.length) ∧
    ((PetGraphCodeGraph.runOps ops).stats.resolved_calls
       + (PetGraphCodeGraph.runOps ops).stats.unresolved_calls
       = (PetGraphCodeGraph.runOps ops).edges.length) :=
  ⟨foldl_preserves
     (fun g => g.stats.resolved_calls + g.stats.unresolved_calls
       = g.call_relations.length)
     _ partition_step_A ops CodeGraph.new rfl,
   foldl_preserves
     (fun g => g.stats.resolved_calls + g.stats.unresolved_calls
       = g.edges.length)
     _ partition_step_B ops PetGraphCodeGraph.new rfl⟩

theorem buildA_total_functions :
    ∀ (fs : List FunctionInfo) (g : CodeGraph),
    (fs.foldl CodeGraph.add_function g).stats.total_functions
      = g.stats.total_functions + fs.length
  | [], g => by simp
  | f :: rest, g => by
    rw [List.foldl_cons, buildA_total_functions rest]
    simp [CodeGraph.add_function]
    omega

theorem buildA_lang_sum :
    ∀ (fs : List FunctionInfo) (g : CodeGraph),
    sumVals (fs.foldl CodeGraph.add_function g).stats.languages
      = sumVals g.stats.languages + fs.length
  | [], g => by simp
  | f :: rest, g => by
    rw [List.foldl_cons, buildA_lang_sum rest]
    simp [CodeGraph.add_function, sumVals_hmBump]
    omega

theorem buildA_functions_length :
    ∀ (fs : List FunctionInfo) (g : CodeGraph),
    (∀ f ∈ fs, f.id ∉ g.functions.map Prod.fst) →
    (fs.map FunctionInfo.id).Nodup →
    (fs.foldl CodeGraph.add_function g).functions.length
      = g.functions.length + fs.length
  | [], g, _, _ => by simp
  | f :: rest, g, hfresh, hnd => by
    have hf : f.id ∉ g.functions.map Prod.fst := hfresh f (by simp)
    have hins : (g.add_function f).functions = g.functions ++ [(f.id, f)] := by
      simp [CodeGraph.add_function, hmInsert_of_not_mem _ _ _ hf]
    simp only [List.map_cons, List.nodup_cons] at hnd
    have hrest : ∀ f' ∈ rest, f'.id ∉ (g.add_function f).functions.map Prod.fst := by
      intro f' hf'
      rw [hins]
      simp only [List.map_append, List.mem_append, List.map_cons, List.map_nil,
        List.mem_singleton]
      push_neg
      exact ⟨hfresh f' (by simp [hf']), fun he =>
        hnd.1 (he ▸ List.mem_map_of_mem FunctionInfo.id hf')⟩
    rw [List.foldl_cons, buildA_functions_length rest _ hrest hnd.2, hins]
    simp
    omega

theorem buildB_total_functions :
    ∀ (fs : List FunctionInfo) (g : PetGraphCodeGraph),
    (fs.foldl (fun g f => (PetGraphCodeGraph.add_function g f).2) g).stats.total_functions
      = g.stats.total_functions + fs.length
  | [], g => by simp
  | f :: rest, g => by
    rw [List.foldl_cons, buildB_total_functions rest]
    simp [PetGraphCodeGraph.add_function]
    omega

theorem buildB_lang_sum :
    ∀ (fs : List FunctionInfo) (g : PetGraphCodeGraph),
    sumVals (fs.foldl (fun g f => (PetGraphCodeGraph.add_function g f).2) g).stats.languages
      = sumVals g.stats.languages + fs.length
  | [], g => by simp
  | f :: rest, g => by
    rw [List.foldl_cons, buildB_lang_sum rest]
    simp [PetGraphCodeGraph.add_function, sumVals_hmBump]
    omega

theorem buildB_map_length :
    ∀ (fs : List FunctionInfo) (g : PetGraphCodeGraph),
    (∀ f ∈ fs, f.id ∉ g.function_to_node.map Prod.fst) →
    (fs.map FunctionInfo.id).Nodup →
    (fs.foldl (fun g f => (PetGraphCodeGraph.add_function g f).2) g).function_to_node.length
      = g.function_to_node.length + fs.length
  | [], g, _, _ => by simp
  | f :: rest, g, hfresh, hnd => by
    have hf : f.id ∉ g.function_to_node.map Prod.fst := hfresh f (by simp)
    have hins : ((g.add_function f).2).function_to_node
        = g.function_to_node ++ [(f.id, g.nodes.length)] := by
      simp [PetGraphCodeGraph.add_function, hmInsert_of_not_mem _ _ _ hf]
    simp only [List.map_cons, List.nodup_cons] at hnd
    have hrest : ∀ f' ∈ rest,
        f'.id ∉ ((g.add_function f).2).function_to_node.map Prod.fst := by
      intro f' hf'
      rw [hins]
      simp only [List.map_append, List.mem_append, List.map_cons, List.map_nil,
        List.mem_singleton]
      push_neg
      exact ⟨hfresh f' (by simp [hf']), fun he =>
        hnd.1 (he ▸ List.mem_map_of_mem FunctionInfo.id hf')⟩
    rw [List.foldl_cons, buildB_map_length rest _ hrest hnd.2, hins]
    simp
    omega

/-- C6: for a graph built from the empty graph by inserting functions
with pairwise distinct ids, in both representations,
`stats.total_functions` equals the size of the id-to-function map
(`functions` in representation A, `function_to_node` in representation
B) and equals the sum of the values of the per-language histogram
`stats.languages`. -/
theorem claim_C6_counting (fs : List FunctionInfo)
    (h : (fs.map FunctionInfo.id).Nodup) :
    ((CodeGraph.buildFromFunctions fs).stats.total_functions
       = (CodeGraph.buildFromFunctions fs).functions.length ∧
     (CodeGraph.buildFromFunctions fs).stats.total_functions
       = sumVals (CodeGraph.buildFromFunctions fs).stats.languages) ∧
    ((PetGraphCodeGraph.buildFromFunctions fs).stats.total_functions
       = (PetGraphCodeGraph.buildFromFunctions fs).function_to_node.length ∧
     (PetGraphCodeGraph.buildFromFunctions fs).stats.total_functions
       = sumVals (PetGraphCodeGraph.buildFromFunctions fs).stats.languages) := by
  refine ⟨⟨?_, ?_⟩, ⟨?_, ?_⟩⟩
  · rw [CodeGraph.buildFromFunctions, buildA_total_functions,
      buildA_functions_length fs CodeGraph.new (by simp [CodeGraph.new]) h]
    rfl
  · rw [CodeGraph.buildFromFunctions, buildA_total_functions, buildA_lang_sum]
    rfl
  · rw [PetGraphCodeGraph.buildFromFunctions, buildB_total_functions,
      buildB_map_length fs PetGraphCodeGraph.new (by simp [PetGraphCodeGraph.new]) h]
    rfl
  · rw [PetGraphCodeGraph.buildFromFunctions, buildB_total_functions, buildB_lang_sum]
    rfl

/-- C6 witness: the counting law at the concrete two-function build. -/
theorem claim_C6_counting_witness :
    ((CodeGraph.buildFromFunctions [funA, funB]).stats.total_functions
       = (CodeGraph.buildFromFunctions [funA, funB]).functions.length ∧
     (CodeGraph.buildFromFunctions [funA, funB]).stats.total_functions
       = sumVals (CodeGraph.buildFromFunctions [funA, funB]).stats.languages) ∧
    ((PetGraphCodeGraph.buildFromFunctions [funA, funB]).stats.total_functions
       = (PetGraphCodeGraph.buildFromFunctions [funA, funB]).function_to_node.length ∧
     (PetGraphCodeGraph.buildFromFunctions [funA, funB]).stats.total_functions
       = sumVals (PetGraphCodeGraph.buildFromFunctions [funA, funB]).stats.languages) :=
  claim_C6_counting [funA, funB] (by decide)

/-- C7 counterexample: on the three-cycle graph (functions A, B, C with
edges A→B, B→C, C→A), under every one of the six possible iteration
orders of the arbitrary-order id→function map, every cycle that
`find_circular_dependencies` returns has its starting function repeated
at the end, so the returned list never contains a (length-3) rotation
of `[A, B, C]` as the claim states — whatever order a run of the
program sees. -/
theorem claim_C7_counterexample :
    permsABC.all (fun fns =>
      (CodeGraphAnalyzer.find_circular_dependencies (gABCwith fns)).all (fun c =>
        decide (c ≠ [funA, funB, funC] ∧ c ≠ [funB, funC, funA] ∧
          c ≠ [funC, funA, funB]))) = true := by
  decide

/-- C7 amended: on the three-cycle graph, representation B's
`has_cycles()` is true, and — under every iteration order of the
id→function map — `find_circular_dependencies()` returns a non-empty
list containing a rotation of `[A, B, C]` closed by repeating its first
function at the end. -/
theorem claim_C7_cycle_detection :
    pABC.has_cycles = true ∧
    ∀ fns ∈ permsABC,
      CodeGraphAnalyzer.find_circular_dependencies (gABCwith fns) ≠ [] ∧
      ∃ c ∈ CodeGraphAnalyzer.find_circular_dependencies (gABCwith fns),
        c ∈ closedRotationsABC := by
  refine ⟨by decide, by decide⟩

/-- C7 witness: the amended statement at the iteration order A, B, C
(where the DFS roots at A and the returned closed rotation is
`[A, B, C, A]`). -/
theorem claim_C7_cycle_detection_witness :
    CodeGraphAnalyzer.find_circular_dependencies
        (gABCwith [(1, funA), (2, funB), (3, funC)]) ≠ [] ∧
    ∃ c ∈ CodeGraphAnalyzer.find_circular_dependencies
        (gABCwith [(1, funA), (2, funB), (3, funC)]),
      c ∈ closedRotationsABC :=
  claim_C7_cycle_detection.2 [(1, funA), (2, funB), (3, funC)] (by decide)

theorem hmGet_some_mem {K V : Type} [DecidableEq K]
    (m : List (K × V)) (k : K) (v : V) (h : hmGet m k = some v) :
    k ∈ m.map Prod.fst := by
  induction m with
  | nil => simp [hmGet] at h
  | cons p rest ih =>
    obtain ⟨k0, v0⟩ := p
    by_cases h0 : k0 = k
    · subst h0; simp
    · simp only [hmGet, if_neg h0] at h
      simp [ih h]

theorem hmGet_ne_none_iff {K V : Type} [DecidableEq K]
    (m : List (K × V)) (k : K) :
    hmGet m k ≠ none ↔ k ∈ m.map Prod.fst := by
  induction m with
  | nil => simp [hmGet]
  | cons p rest ih =>
    obtain ⟨k0, v0⟩ := p
    by_cases h0 : k0 = k
    · subst h0; simp [hmGet]
    · have h0' : ¬ k = k0 := fun h => h0 h.symm
      simp [hmGet, h0, h0', ih]

theorem runOpsB_wf (ops : List GraphOp) : (PetGraphCodeGraph.runOps ops).wf := by
  refine foldl_preserves PetGraphCodeGraph.wf _ ?_ ops PetGraphCodeGraph.new
    ⟨by simp [PetGraphCodeGraph.new], by simp [PetGraphCodeGraph.new]⟩
  intro g op h
  obtain ⟨hedges, hkeys⟩ := h
  cases op with
  | addFun f =>
    constructor
    · intro e he
      simp only [PetGraphCodeGraph.add_function] at he
      obtain ⟨h1, h2⟩ := hedges e he
      simp only [PetGraphCodeGraph.add_function, List.map_append, List.mem_append]
      exact ⟨Or.inl h1, Or.inl h2⟩
    · intro k hk
      simp only [PetGraphCodeGraph.add_function] at hk
      rw [← hmGet_ne_none_iff, hmGet_hmInsert] at hk
      simp only [PetGraphCodeGraph.add_function, List.map_append, List.mem_append]
      by_cases hf : f.id = k
      · subst hf; simp
      · rw [if_neg hf] at hk
        exact Or.inl (hkeys k ((hmGet_ne_none_iff _ _).mp hk))
  | addRel r =>
    show ((g.add_call_relation r).2).wf
    cases h1 : hmGet g.function_to_node r.caller_id with
    | none =>
      have hsame : (g.add_call_relation r).2 = g := by
        simp [PetGraphCodeGraph.add_call_relation, h1]
      rw [hsame]
      exact ⟨hedges, hkeys⟩
    | some n =>
      cases h2 : hmGet g.function_to_node r.callee_id with
      | none =>
        have hsame : (g.add_call_relation r).2 = g := by
          simp [PetGraphCodeGraph.add_call_relation, h1, h2]
        rw [hsame]
        exact ⟨hedges, hkeys⟩
      | some m =>
        constructor
        · intro e he
          simp only [PetGraphCodeGraph.add_call_relation, h1, h2,
            List.mem_append, List.mem_singleton] at he
          rcases he with he | he
          · obtain ⟨ha, hb⟩ := hedges e he
            exact ⟨by simpa [PetGraphCodeGraph.add_call_relation, h1, h2] using ha,
              by simpa [PetGraphCodeGraph.add_call_relation, h1, h2] using hb⟩
          · subst he
            refine ⟨?_, ?_⟩
            · simpa [PetGraphCodeGraph.add_call_relation, h1, h2] using
                hkeys _ (hmGet_some_mem _ _ _ h1)
            · simpa [PetGraphCodeGraph.add_call_relation, h1, h2] using
                hkeys _ (hmGet_some_mem _ _ _ h2)
        · intro k hk
          simp only [PetGraphCodeGraph.add_call_relation, h1, h2] at hk ⊢
          exact hkeys k hk

theorem rebuild_functions :
    ∀ (fs : List FunctionInfo) (g : PetGraphCodeGraph),
    (fs.foldl (fun g f => (PetGraphCodeGraph.add_function g f).2) g).nodes
      = g.nodes ++ fs ∧
    (fs.foldl (fun g f => (PetGraphCodeGraph.add_function g f).2) g).edges
      = g.edges
  | [], g => by simp
  | f :: rest, g => by
    have ih := rebuild_functions rest ((PetGraphCodeGraph.add_function g f).2)
    rw [List.foldl_cons]
    refine ⟨?_, ?_⟩
    · rw [ih.1]; simp [PetGraphCodeGraph.add_function]
    · rw [ih.2]; simp [PetGraphCodeGraph.add_function]

theorem rebuild_lookup :
    ∀ (fs : List FunctionInfo) (g : PetGraphCodeGraph) (id : Nat),
    (id ∈ fs.map FunctionInfo.id ∨ hmGet g.function_to_node id ≠ none) →
    hmGet (fs.foldl (fun g f => (PetGraphCodeGraph.add_function g f).2) g).function_to_node id
      ≠ none
  | [], g, id, h => by
    rcases h with h | h
    · simp at h
    · simpa using h
  | f :: rest, g, id, h => by
    rw [List.foldl_cons]
    apply rebuild_lookup rest
    by_cases hid : id ∈ rest.map FunctionInfo.id
    · exact Or.inl hid
    · right
      simp only [PetGraphCodeGraph.add_function, hmGet_hmInsert]
      by_cases hf : f.id = id
      · simp [hf]
      · rw [if_neg hf]
        rcases h with h | h
        · simp only [List.map_cons, List.mem_cons] at h
          rcases h with h | h
          · exact absurd h.symm hf
          · exact absurd h hid
        · exact h

theorem rebuild_relations :
    ∀ (rels : List CallRelation) (g : PetGraphCodeGraph),
    (∀ r ∈ rels, hmGet g.function_to_node r.caller_id ≠ none ∧
        hmGet g.function_to_node r.callee_id ≠ none) →
    ((rels.foldl (fun g r => (PetGraphCodeGraph.add_call_relation g r).2) g).edges.map
        (fun e => e.2.2) = g.edges.map (fun e => e.2.2) ++ rels) ∧
    ((rels.foldl (fun g r => (PetGraphCodeGraph.add_call_relation g r).2) g).nodes
        = g.nodes)
  | [], g, _ => by simp
  | r :: rest, g, h => by
    obtain ⟨hc, hk⟩ := h r (by simp)
    rw [List.foldl_cons]
    cases h1 : hmGet g.function_to_node r.caller_id with
    | none => exact absurd h1 hc
    | some n =>
      cases h2 : hmGet g.function_to_node r.callee_id with
      | none => exact absurd h2 hk
      | some m =>
        have hstep : ((PetGraphCodeGraph.add_call_relation g r).2).function_to_node
            = g.function_to_node := by
          simp [PetGraphCodeGraph.add_call_relation, h1, h2]
        have ih := rebuild_relations rest ((PetGraphCodeGraph.add_call_relation g r).2)
          (by
            intro r' hr'
            rw [hstep]
            exact h r' (by simp [hr']))
        refine ⟨?_, ?_⟩
        · rw [ih.1]
          simp [PetGraphCodeGraph.add_call_relation, h1, h2]
        · rw [ih.2]
          simp [PetGraphCodeGraph.add_call_relation, h1, h2]

/-- C1: the storage codec round-trips every representation-B graph
reachable from the empty graph by `add_function` / `add_call_relation`
operations (including the empty graph): saving then loading — via
`from_petgraph`/`to_petgraph`, with the serde_json/bincode layer of
`save_to_json`/`load_from_json` and `save_to_binary`/`load_from_binary`
modelled as an exact codec on the `PetGraphStorage` record — yields the
identical function list, the identical call-relation list (hence the
same multiset keyed by caller, callee and line), identical stats, and
identical name and file indices. -/
theorem claim_C1_roundtrip (ops : List GraphOp) :
    (PetGraphStorageManager.save_then_load (PetGraphCodeGraph.runOps ops)).get_all_functions
      = (PetGraphCodeGraph.runOps ops).get_all_functions ∧
    (PetGraphStorageManager.save_then_load (PetGraphCodeGraph.runOps ops)).get_all_call_relations
      = (PetGraphCodeGraph.runOps ops).get_all_call_relations ∧
    (PetGraphStorageManager.save_then_load (PetGraphCodeGraph.runOps ops)).stats
      = (PetGraphCodeGraph.runOps ops).stats ∧
    (PetGraphStorageManager.save_then_load (PetGraphCodeGraph.runOps ops)).function_names
      = (PetGraphCodeGraph.runOps ops).function_names ∧
    (PetGraphStorageManager.save_then_load (PetGraphCodeGraph.runOps ops)).file_functions
      = (PetGraphCodeGraph.runOps ops).file_functions := by
  have hwf := runOpsB_wf ops
  set g := PetGraphCodeGraph.runOps ops with hg
  obtain ⟨hedges, hkeys⟩ := hwf
  have h1 := rebuild_functions g.nodes PetGraphCodeGraph.new
  have hnodes1 : (g.nodes.foldl (fun g f => (PetGraphCodeGraph.add_function g f).2)
      PetGraphCodeGraph.new).nodes = g.nodes := by
    rw [h1.1]; rfl
  have hedges1 : (g.nodes.foldl (fun g f => (PetGraphCodeGraph.add_function g f).2)
      PetGraphCodeGraph.new).edges = [] := h1.2
  have hlook : ∀ r ∈ g.edges.map (fun e => e.2.2),
      hmGet (g.nodes.foldl (fun g f => (PetGraphCodeGraph.add_function g f).2)
        PetGraphCodeGraph.new).function_to_node r.caller_id ≠ none ∧
      hmGet (g.nodes.foldl (fun g f => (PetGraphCodeGraph.add_function g f).2)
        PetGraphCodeGraph.new).function_to_node r.callee_id ≠ none := by
    intro r hr
    simp only [List.mem_map] at hr
    obtain ⟨e, he, rfl⟩ := hr
    obtain ⟨ha, hb⟩ := hedges e he
    exact ⟨rebuild_lookup _ _ _ (Or.inl ha), rebuild_lookup _ _ _ (Or.inl hb)⟩
  have h2 := rebuild_relations (g.edges.map (fun e => e.2.2)) _ hlook
  refine ⟨?_, ?_, rfl, rfl, rfl⟩
  · show (PetGraphStorageManager.save_then_load g).nodes = g.nodes
    simp only [PetGraphStorageManager.save_then_load, PetGraphStorage.to_petgraph,
      PetGraphStorage.from_petgraph, PetGraphCodeGraph.get_all_functions,
      PetGraphCodeGraph.get_all_call_relations]
    rw [h2.2, hnodes1]
  · show (PetGraphStorageManager.save_then_load g).edges.map (fun e => e.2.2)
      = g.edges.map (fun e => e.2.2)
    simp only [PetGraphStorageManager.save_then_load, PetGraphStorage.to_petgraph,
      PetGraphStorage.from_petgraph, PetGraphCodeGraph.get_all_functions,
      PetGraphCodeGraph.get_all_call_relations]
    rw [h2.1, hedges1]
    rfl

/-- C4 counterexample: in the symbol stream `streamTop`, the call site
naming "f" has exactly one matching candidate in the name index (the
declaration of "f" in the second file), yet the built graph contains no
call edge at all — the call site precedes any declaration in its file,
so the enclosing-function stack is empty and the site is skipped. -/
theorem claim_C4_counterexample :
    (CodeGraph.find_functions_by_name (build_code_graph streamTop) "f").length = 1 ∧
    (build_code_graph streamTop).call_relations = [] := by
  refine ⟨by decide, by decide⟩

theorem foldl_add_call_relations :
    ∀ (rels : List CallRelation) (g : CodeGraph),
    (rels.foldl CodeGraph.add_call_relation g).call_relations
      = g.call_relations ++ rels
  | [], g => by simp
  | r :: rest, g => by
    rw [List.foldl_cons, foldl_add_call_relations rest]
    simp [CodeGraph.add_call_relation]

theorem allResolved_add_function (g : CodeGraph) (f : FunctionInfo)
    (h : allResolved g) : allResolved (g.add_function f) := by
  obtain ⟨h1, h2⟩ := h
  exact ⟨fun rel hr => h1 rel (by simpa [CodeGraph.add_function] using hr),
    by simpa [CodeGraph.add_function] using h2⟩

theorem allResolved_add_relations (rels : List CallRelation) :
    ∀ (g : CodeGraph), allResolved g → (∀ r ∈ rels, r.is_resolved = true) →
    allResolved (rels.foldl CodeGraph.add_call_relation g) := by
  induction rels with
  | nil => intro g hg _; exact hg
  | cons r rest ih =>
    intro g hg hall
    rw [List.foldl_cons]
    refine ih (g.add_call_relation r) ⟨?_, ?_⟩ (fun r' hr' => hall r' (by simp [hr']))
    · intro rel hrel
      simp only [CodeGraph.add_call_relation, List.mem_append,
        List.mem_singleton] at hrel
      rcases hrel with h | h
      · exact hg.1 rel h
      · subst h; exact hall rel (by simp)
    · have hr : r.is_resolved = true := hall r (by simp)
      simp [CodeGraph.add_call_relation, hr, hg.2]

theorem allResolved_analyzeCallSymbol (g : CodeGraph) (stack : List Nat)
    (sym : AstSymbol) (h : allResolved g) :
    allResolved (analyzeCallSymbol g stack sym).1 := by
  cases hty : sym.symbol_type with
  | FunctionDeclaration =>
    cases hh : (g.find_functions_by_name sym.name).head? <;>
      simpa [analyzeCallSymbol, hty, hh] using h
  | FunctionCall =>
    cases hl : stack.getLast? with
    | none => simpa [analyzeCallSymbol, hty, hl] using h
    | some caller_id =>
      cases hc : hmGet g.functions caller_id with
      | none => simpa [analyzeCallSymbol, hty, hl, hc] using h
      | some caller_info =>
        simp only [analyzeCallSymbol, hty, hl, hc]
        refine allResolved_add_relations _ g h ?_
        intro r hr
        simp only [List.mem_map] at hr
        obtain ⟨callee, _, rfl⟩ := hr
        rfl
  | Other => simpa [analyzeCallSymbol, hty] using h

theorem allResolved_analyzeFile (g : CodeGraph) (symbols : List AstSymbol)
    (h : allResolved g) : allResolved (analyzeFile g symbols) := by
  have := foldl_preserves (fun p : CodeGraph × List Nat => allResolved p.1)
    (fun p sym => analyzeCallSymbol p.1 p.2 sym)
    (fun p sym hp => allResolved_analyzeCallSymbol p.1 p.2 sym hp)
    symbols (g, []) h
  exact this

/-- C4 amended: during the call-resolution pass, a call site is only
processed when the per-file enclosing-function stack is non-empty and
its top id resolves in the function map; such a call site with k
matching candidates in the name index appends exactly k call edges, each
marked resolved and attributed to the stack top (so zero matches append
nothing); a call site seen with an empty stack is skipped even when
matches exist.  Consequently a graph produced by `build_code_graph`
contains no unresolved edge and has `stats.unresolved_calls = 0`. -/
theorem claim_C4_resolution_policy :
    (∀ (g : CodeGraph) (stack : List Nat) (sym : AstSymbol) (caller_id : Nat)
       (caller_info : FunctionInfo),
       sym.symbol_type = SymbolType.FunctionCall →
       stack.getLast? = some caller_id →
       hmGet g.functions caller_id = some caller_info →
       ∃ new, (analyzeCallSymbol g stack sym).1.call_relations
           = g.call_relations ++ new ∧
         new.length = (g.find_functions_by_name sym.name).length ∧
         ∀ r ∈ new, r.is_resolved = true ∧ r.caller_id = caller_id) ∧
    (∀ (g : CodeGraph) (stack : List Nat) (sym : AstSymbol),
       sym.symbol_type = SymbolType.FunctionCall →
       stack.getLast? = none →
       (analyzeCallSymbol g stack sym).1 = g) ∧
    (∀ file_asts : List (String × List AstSymbol),
       (∀ rel ∈ (build_code_graph file_asts).call_relations,
          rel.is_resolved = true) ∧
       (build_code_graph file_asts).stats.unresolved_calls = 0) := by
  refine ⟨?_, ?_, ?_⟩
  · intro g stack sym caller_id caller_info hty hl hc
    refine ⟨(g.find_functions_by_name sym.name).map (fun callee_info =>
      { caller_id := caller_id,
        callee_id := callee_info.id,
        caller_name := caller_info.name,
        callee_name := callee_info.name,
        caller_file := caller_info.file_path,
        callee_file := callee_info.file_path,
        line_number := sym.row_start + 1,
        is_resolved := true }), ?_, by simp, ?_⟩
    · simp only [analyzeCallSymbol, hty, hl, hc]
      exact foldl_add_call_relations _ g
    · intro r hr
      simp only [List.mem_map] at hr
      obtain ⟨callee, _, rfl⟩ := hr
      exact ⟨rfl, rfl⟩
  · intro g stack sym hty hl
    simp [analyzeCallSymbol, hty, hl]
  · intro file_asts
    have hpass1 : allResolved (file_asts.foldl
        (fun g fa =>
          fa.2.foldl
            (fun g sym =>
              if sym.symbol_type = SymbolType.FunctionDeclaration then
                g.add_function (createFunctionInfo sym fa.1)
              else g)
            g)
        CodeGraph.new) := by
      refine foldl_preserves allResolved _ ?_ file_asts CodeGraph.new
        ⟨by simp [CodeGraph.new], rfl⟩
      intro g fa hg
      refine foldl_preserves allResolved _ ?_ fa.2 g hg
      intro g' sym hg'
      by_cases hty : sym.symbol_type = SymbolType.FunctionDeclaration
      · simpa [hty] using allResolved_add_function g' _ hg'
      · simpa [hty] using hg'
    have hpass2 : allResolved (analyze_call_relations
        (file_asts.foldl
          (fun g fa =>
            fa.2.foldl
              (fun g sym =>
                if sym.symbol_type = SymbolType.FunctionDeclaration then
                  g.add_function (createFunctionInfo sym fa.1)
                else g)
              g)
          CodeGraph.new) file_asts) := by
      rw [analyze_call_relations]
      exact foldl_preserves allResolved _
        (fun g fa hg => allResolved_analyzeFile g fa.2 hg) file_asts _ hpass1
    have hfinal : allResolved (build_code_graph file_asts) := by
      rw [build_code_graph]
      obtain ⟨h1, h2⟩ := hpass2
      exact ⟨fun rel hr => h1 rel (by simpa [CodeGraph.update_stats] using hr),
        by simpa [CodeGraph.update_stats] using h2⟩
    exact hfinal

/-- C4 witness: the amended per-site law exercised on a concrete graph
(declarations `g` and `f`, stack top `g`, call site naming `f` with one
candidate), and the skip law exercised on the empty stack. -/
theorem claim_C4_resolution_policy_witness :
    (∃ new,
       (analyzeCallSymbol (CodeGraph.buildFromFunctions [mkFun 1 "g" "a.rs", mkFun 7 "f" "b.rs"])
           [1] (symCall "f" 3)).1.call_relations
         = (CodeGraph.buildFromFunctions [mkFun 1 "g" "a.rs", mkFun 7 "f" "b.rs"]).call_relations
           ++ new ∧
       new.length
         = (CodeGraph.find_functions_by_name
             (CodeGraph.buildFromFunctions [mkFun 1 "g" "a.rs", mkFun 7 "f" "b.rs"])
             (symCall "f" 3).name).length ∧
       ∀ r ∈ new, r.is_resolved = true ∧ r.caller_id = 1) ∧
    (analyzeCallSymbol (CodeGraph.buildFromFunctions [mkFun 1 "g" "a.rs", mkFun 7 "f" "b.rs"])
        [] (symCall "f" 3)).1
      = CodeGraph.buildFromFunctions [mkFun 1 "g" "a.rs", mkFun 7 "f" "b.rs"] ∧
    ((∀ rel ∈ (build_code_graph streamTop).call_relations, rel.is_resolved = true) ∧
     (build_code_graph streamTop).stats.unresolved_calls = 0) :=
  ⟨claim_C4_resolution_policy.1
     (CodeGraph.buildFromFunctions [mkFun 1 "g" "a.rs", mkFun 7 "f" "b.rs"])
     [1] (symCall "f" 3) 1 (mkFun 1 "g" "a.rs") (by decide) (by decide) (by decide),
   claim_C4_resolution_policy.2.1
     (CodeGraph.buildFromFunctions [mkFun 1 "g" "a.rs", mkFun 7 "f" "b.rs"])
     [] (symCall "f" 3) (by decide) (by decide),
   claim_C4_resolution_policy.2.2 streamTop⟩

theorem chainList_sub (step : Nat → List Nat → List (List Nat) × List Nat)
    (hsub : ∀ c v, v ⊆ (step c v).2) :
    ∀ (cs v : List Nat), v ⊆ (chainList step cs v).2
  | [], v => by simp [chainList]
  | c :: rest, v => by
    simp only [chainList]
    exact fun a ha => chainList_sub step hsub rest _ (hsub c v ha)

theorem chainAux_visited_sub (callees : Nat → List Nat) :
    ∀ (fuel id : Nat) (v : List Nat), v ⊆ (chainAux callees fuel id v).2
  | 0, id, v => by simp [chainAux]
  | fuel + 1, id, v => by
    by_cases hv : id ∈ v
    · simp [chainAux, hv]
    · by_cases hcs : (callees id).isEmpty = true
      · simp only [chainAux, if_neg hv, hcs, if_true]
        exact fun a ha => List.mem_cons_of_mem _ ha
      · simp only [chainAux, if_neg hv, hcs, if_false]
        exact fun a ha =>
          chainList_sub (fun c v => chainAux callees fuel c v)
            (fun c v => chainAux_visited_sub callees fuel c v)
            (callees id) (id :: v) (List.mem_cons_of_mem _ ha)

theorem chainOk_anti (callees : Nat → List Nat) (b : Nat)
    (v v' ch : List Nat) (hvv : v ⊆ v') (h : chainOk callees v' b ch) :
    chainOk callees v b ch :=
  ⟨h.1, h.2.1, h.2.2.1, fun x hx hxv => h.2.2.2.1 x hx (hvv hxv), h.2.2.2.2⟩

theorem chainList_mem_spec
    (step : Nat → List Nat → List (List Nat) × List Nat)
    (P : Nat → List Nat → List Nat → Prop)
    (hsub : ∀ c v, v ⊆ (step c v).2)
    (hstep : ∀ c v ch, ch ∈ (step c v).1 → P c v ch)
    (hanti : ∀ c v v' ch, v ⊆ v' → P c v' ch → P c v ch) :
    ∀ (cs v : List Nat) (ch : List Nat),
      ch ∈ (chainList step cs v).1 → ∃ b ∈ cs, P b v ch
  | [], v, ch => by simp [chainList]
  | c :: rest, v, ch => by
    simp only [chainList]
    intro h
    rcases List.mem_append.mp h with h | h
    · exact ⟨c, by simp, hstep c v ch h⟩
    · obtain ⟨b, hb, hP⟩ :=
        chainList_mem_spec step P hsub hstep hanti rest _ ch h
      exact ⟨b, by simp [hb], hanti b v _ ch (hsub c v) hP⟩

theorem chainAux_spec (callees : Nat → List Nat) :
    ∀ (fuel id : Nat) (v ch : List Nat),
      ch ∈ (chainAux callees fuel id v).1 → chainOk callees v id ch := by
  intro fuel
  induction fuel with
  | zero => intro id v ch h; simp [chainAux] at h
  | succ fuel ih =>
    intro id v ch h
    by_cases hv : id ∈ v
    · simp [chainAux, hv] at h
    · by_cases hcs : (callees id).isEmpty = true
      · simp only [chainAux, if_neg hv, hcs, if_true, List.mem_singleton] at h
        subst h
        refine ⟨rfl, List.chain'_singleton id, List.nodup_singleton id, ?_, ?_⟩
        · intro x hx
          simp only [List.mem_singleton] at hx
          subst hx
          exact hv
        · intro l hl
          simp only [List.getLast?_singleton, Option.some.injEq] at hl
          subst hl
          exact List.isEmpty_iff.mp hcs
      · simp only [chainAux, if_neg hv, hcs, if_false] at h
        rcases List.mem_map.mp h with ⟨ch', hch', rfl⟩
        obtain ⟨b, hb, hP⟩ := chainList_mem_spec
          (fun c v => chainAux callees fuel c v)
          (fun b v ch => chainOk callees v b ch)
          (fun c v => chainAux_visited_sub callees fuel c v)
          (fun c v ch h => ih c v ch h)
          (fun c v v' ch hvv hp => chainOk_anti callees c v v' ch hvv hp)
          (callees id) (id :: v) ch' hch'
        obtain ⟨hhead, hchain, hnodup, havoid, hlast⟩ := hP
        refine ⟨rfl, ?_, ?_, ?_, ?_⟩
        · rw [List.chain'_cons']
          refine ⟨?_, hchain⟩
          intro y hy
          rw [hhead] at hy
          simp only [Option.mem_some_iff] at hy
          subst hy
          exact hb
        · rw [List.nodup_cons]
          exact ⟨fun hmem => (havoid id hmem) (by simp), hnodup⟩
        · intro x hx
          rcases List.mem_cons.mp hx with rfl | hx
          · exact hv
          · exact fun hxv => (havoid x hx) (List.mem_cons_of_mem _ hxv)
        · intro l hl
          cases ch' with
          | nil => simp at hhead
          | cons c0 cs0 =>
            rw [List.getLast?_cons_cons] at hl
            exact hlast l hl

/-- C3 counterexample: in the concrete graph A→B, B→C, function A exists
and has a callee, and the expansion from A is cut off at `max_depth = 1`
— yet `get_call_chain(A, 1)` returns no chain at all: a branch that
reaches the depth bound contributes nothing, contradicting the claim
that a path is emitted when max_depth is reached. -/
theorem claim_C3_counterexample :
    hmGet gLin.functions 1 = some funA ∧
    gLin.calleeIds 1 ≠ [] ∧
    gLin.get_call_chain 1 1 = [] := by
  refine ⟨by decide, by decide, by decide⟩

/-- C3 amended: in both representations, every chain returned by
`get_call_chain(id, max_depth)` starts at `id`, follows call edges
(each consecutive pair is a caller→callee edge), and repeats no
function; a function already in the single visited set shared across
the whole expansion is never re-expanded (it yields no chains and
leaves the visited set unchanged); and a chain is emitted exactly for
expansions reaching a function with no callees strictly before the
depth bound — every returned chain ends at a callee-less function, an
unvisited callee-less function one level below the bound yields its
singleton chain, and branches cut off at max_depth contribute nothing. -/
theorem claim_C3_call_chain (gA : CodeGraph) (gB : PetGraphCodeGraph)
    (id max_depth : Nat) :
    (∀ ch ∈ gA.get_call_chain id max_depth,
       ch.head? = some id ∧
       List.Chain' (fun a b => b ∈ gA.calleeIds a) ch ∧
       ch.Nodup ∧
       ∀ l, ch.getLast? = some l → gA.calleeIds l = []) ∧
    (∀ ch ∈ gB.get_call_chain id max_depth,
       ch.head? = some id ∧
       List.Chain' (fun a b => b ∈ gB.calleeIds a) ch ∧
       ch.Nodup ∧
       ∀ l, ch.getLast? = some l → gB.calleeIds l = []) ∧
    (∀ (callees : Nat → List Nat) (fuel i : Nat) (visited : List Nat),
       i ∈ visited → chainAux callees fuel i visited = ([], visited)) ∧
    (∀ (callees : Nat → List Nat) (fuel i : Nat) (visited : List Nat),
       i ∉ visited → callees i = [] →
       chainAux callees (fuel + 1) i visited = ([[i]], i :: visited)) := by
  refine ⟨?_, ?_, ?_, ?_⟩
  · intro ch hch
    have h := chainAux_spec gA.calleeIds max_depth id [] ch hch
    exact ⟨h.1, h.2.1, h.2.2.1, h.2.2.2.2⟩
  · intro ch hch
    have h := chainAux_spec gB.calleeIds max_depth id [] ch hch
    exact ⟨h.1, h.2.1, h.2.2.1, h.2.2.2.2⟩
  · intro callees fuel i visited hi
    cases fuel with
    | zero => simp [chainAux]
    | succ fuel => simp [chainAux, hi]
  · intro callees fuel i visited hi hc
    simp [chainAux, hi, hc]

/-- C3 witness: the amended statement exercised on the concrete graphs
A→B, B→C (both representations return exactly the chain `[A, B, C]` at
depth 3), on a visited start (no expansion) and on an unvisited
callee-less start (its singleton chain). -/
theorem claim_C3_call_chain_witness :
    (([1, 2, 3] : List Nat).head? = some 1 ∧
     List.Chain' (fun a b => b ∈ gLin.calleeIds a) [1, 2, 3] ∧
     ([1, 2, 3] : List Nat).Nodup ∧
     ∀ l, ([1, 2, 3] : List Nat).getLast? = some l → gLin.calleeIds l = []) ∧
    (([1, 2, 3] : List Nat).head? = some 1 ∧
     List.Chain' (fun a b => b ∈ pLin.calleeIds a) [1, 2, 3] ∧
     ([1, 2, 3] : List Nat).Nodup ∧
     ∀ l, ([1, 2, 3] : List Nat).getLast? = some l → pLin.calleeIds l = []) ∧
    chainAux (fun _ => [7]) 5 1 [1] = ([], [1]) ∧
    chainAux (fun _ => []) (4 + 1) 9 [] = ([[9]], [9]) :=
  ⟨(claim_C3_call_chain gLin pLin 1 3).1 [1, 2, 3] (by decide),
   (claim_C3_call_chain gLin pLin 1 3).2.1 [1, 2, 3] (by decide),
   (claim_C3_call_chain gLin pLin 1 3).2.2.1 (fun _ => [7]) 5 1 [1] (by decide),
   (claim_C3_call_chain gLin pLin 1 3).2.2.2 (fun _ => []) 4 9 [] (by decide) rfl⟩
